import Mathlib

/-!
Verification of the catch-and-throw controller (`player_catch`) of the
pumpkin-jam demo against its design specification.  Vectors carry exact
rational coordinates (the `f32` arithmetic of the source idealized as exact
arithmetic); the normalized direction produced by `normalize_or_zero`
involves a square root and therefore lives in a real-coordinate vector type.
-/

noncomputable section

/-- A 3-component vector with exact rational coordinates, modelling `glam`
`Vec3` values. -/
structure Vec3 where
  x : ℚ
  y : ℚ
  z : ℚ
deriving DecidableEq

instance : Zero Vec3 where
  zero := ⟨0, 0, 0⟩

instance : Add Vec3 where
  add a b := ⟨a.x + b.x, a.y + b.y, a.z + b.z⟩

instance : Sub Vec3 where
  sub a b := ⟨a.x - b.x, a.y - b.y, a.z - b.z⟩

instance : Neg Vec3 where
  neg a := ⟨-a.x, -a.y, -a.z⟩

instance : SMul ℚ Vec3 where
  smul c a := ⟨c * a.x, c * a.y, c * a.z⟩

/-- `Vec3::length_squared`: the dot product of the vector with itself. -/
def Vec3.lengthSquared (v : Vec3) : ℚ :=
  v.x * v.x + v.y * v.y + v.z * v.z

/-- `Vec3::distance_squared(self, rhs) = (self - rhs).length_squared()`. -/
def Vec3.distanceSquared (a b : Vec3) : ℚ :=
  (a - b).lengthSquared

/-- A 3-component vector with real coordinates, the codomain of
`normalize_or_zero`. -/
structure RVec3 where
  x : ℝ
  y : ℝ
  z : ℝ

instance : Zero RVec3 where
  zero := ⟨0, 0, 0⟩

instance : Add RVec3 where
  add a b := ⟨a.x + b.x, a.y + b.y, a.z + b.z⟩

instance : Sub RVec3 where
  sub a b := ⟨a.x - b.x, a.y - b.y, a.z - b.z⟩

instance : Neg RVec3 where
  neg a := ⟨-a.x, -a.y, -a.z⟩

instance : SMul ℝ RVec3 where
  smul c a := ⟨c * a.x, c * a.y, c * a.z⟩

/-- Coordinatewise embedding of rational vectors into real vectors. -/
def Vec3.toR (v : Vec3) : RVec3 :=
  ⟨(v.x : ℝ), (v.y : ℝ), (v.z : ℝ)⟩

/-- Squared Euclidean length of a real vector. -/
def RVec3.lengthSquared (v : RVec3) : ℝ :=
  v.x * v.x + v.y * v.y + v.z * v.z

/-- Euclidean length of a real vector. -/
def RVec3.norm (v : RVec3) : ℝ :=
  Real.sqrt v.lengthSquared

/-- `glam` `Vec3::normalize_or_zero`: the unit vector in the direction of
`v`, or the zero vector when `v` is the zero vector (the reciprocal length
is not finite and positive exactly when the length is zero). -/
def Vec3.normalizeOrZero (v : Vec3) : RVec3 :=
  if v = 0 then 0 else (Real.sqrt (v.lengthSquared : ℝ))⁻¹ • v.toR

/-- The Rust saturating cast `as u32` on a nonnegative exact value: truncate
the fractional part and clamp at the largest `u32` value.  (A negative value
clamps to `0`; `NaN`, which Rust also maps to `0`, has no representation in
exact arithmetic, and the squared distance fed to this cast is always
nonnegative.) -/
def castU32 (q : ℚ) : ℕ :=
  min ⌊q⌋₊ (2 ^ 32 - 1)

/-- The sort key computed at `main.rs:548`:
`transform.translation().distance_squared(catcher_position) as u32`. -/
def catchKey (catcherPosition position : Vec3) : ℕ :=
  castU32 (Vec3.distanceSquared position catcherPosition)

/-- Rust `Iterator::min_by_key` over a list, additionally returning the
index of the selected element.  Per the Rust documentation, when several
elements are equally minimum the first element is returned. -/
def argminIdx {α : Type _} (key : α → ℕ) : List α → Option (ℕ × α)
  | [] => none
  | a :: l =>
    match argminIdx key l with
    | none => some (0, a)
    | some (j, b) => if key a ≤ key b then some (0, a) else some (j + 1, b)

/-- The per-object state read and written by `player_catch`: the
`ExternalImpulse` accumulator, `Velocity.linvel`, the mass from
`ReadMassProperties`, and the `GlobalTransform` translation. -/
structure CatchObject where
  impulse : RVec3
  linvel : Vec3
  mass : ℚ
  position : Vec3

/-- The `Player` component fields (`main.rs:160`). -/
structure Player where
  sensitivity : ℚ × ℚ
  speed : ℚ
  maxCatchSpeed : ℚ
  throwSpeed : ℚ

/-- `Player::default` (`main.rs:167`): sensitivity `(0.1, 0.1)`, speed
`1.0`, `max_catch_speed = 100.0`, `throw_speed = 200.0`. -/
def Player.default : Player :=
  { sensitivity := (1 / 10, 1 / 10), speed := 1, maxCatchSpeed := 100, throwSpeed := 200 }

/-- The impulse written while the catch trigger is pressed
(`main.rs:552`-`555`):
`speed = (10.0 * delta_position.length_squared()).min(max_catch_speed)`;
`delta_velocity = delta_position.normalize_or_zero() * speed - velocity.linvel`;
`impulse.impulse = delta_velocity * mass`. -/
def holdImpulse (maxCatchSpeed : ℚ) (deltaPosition linvel : Vec3) (mass : ℚ) : RVec3 :=
  (mass : ℝ) •
    (((min (10 * deltaPosition.lengthSquared) maxCatchSpeed : ℚ) : ℝ) •
        deltaPosition.normalizeOrZero -
      linvel.toR)

/-- The launch speed computed on release (`main.rs:557`):
`1.0 / (delta_position.length_squared() + 1.0) * throw_speed`. -/
def releaseSpeed (throwSpeed d2 : ℚ) : ℚ :=
  1 / (d2 + 1) * throwSpeed

/-- The impulse written on release (`main.rs:556`-`559`):
`delta_velocity = catcher_direction * speed`;
`impulse.impulse = delta_velocity * mass`. -/
def releaseImpulse (throwSpeed : ℚ) (deltaPosition catcherDirection : Vec3) (mass : ℚ) :
    RVec3 :=
  (mass • (releaseSpeed throwSpeed deltaPosition.lengthSquared • catcherDirection)).toR

/-- The body of the `player_catch` system (`main.rs:516`-`562`) for one
tick, as a function of the trigger state, the player configuration values
it reads, the catcher pose, and the list of catch objects in query
iteration order.  Returns the updated object list. -/
def playerCatch (catchPressed catchJustReleased : Bool) (maxCatchSpeed throwSpeed : ℚ)
    (catcherPosition catcherDirection : Vec3) (objects : List CatchObject) :
    List CatchObject :=
  match argminIdx (fun o => catchKey catcherPosition o.position) objects with
  | none => objects
  | some (i, o) =>
    let deltaPosition := catcherPosition - o.position
    if catchPressed then
      objects.set i { o with impulse := holdImpulse maxCatchSpeed deltaPosition o.linvel o.mass }
    else if catchJustReleased then
      objects.set i
        { o with impulse := releaseImpulse throwSpeed deltaPosition catcherDirection o.mass }
    else
      objects

/-- Modelled from the spec: the edge-triggered release flag of the input
collaborator (`just_released`), which is not part of this repository.  It
is a two-state latch comparing the previous pressed state with the current
one, false on the initial tick. -/
def justReleased (press : ℕ → Bool) : ℕ → Bool
  | 0 => false
  | t + 1 => press t && !press (t + 1)

/-- Modelled from the spec, holding policy: desired speed
`s = min(k_p * dist2, s_max)`, desired velocity `v_des = normalize(dp) * s`
(zero vector when `dp = 0`), impulse `J = (v_des - v) * m`. -/
def specHoldImpulse (kp smax : ℚ) (dp v : Vec3) (m : ℚ) : RVec3 :=
  (m : ℝ) • (((min (kp * dp.lengthSquared) smax : ℚ) : ℝ) • dp.normalizeOrZero - v.toR)

/-- Modelled from the spec, release policy: launch speed
`s = throw_speed / (dist2 + 1)`, impulse `J = F_c * s * m`, directed along
the catcher forward vector `F_c`. -/
def specReleaseImpulse (throwSpeed : ℚ) (fc dp : Vec3) (m : ℚ) : RVec3 :=
  ((m * (throwSpeed / (dp.lengthSquared + 1))) • fc).toR

/-! Component-level simp lemmas for the vector operations. -/

@[simp]
theorem Vec3.zero_def : (0 : Vec3) = ⟨0, 0, 0⟩ :=
  rfl

@[simp]
theorem Vec3.add_def (a b : Vec3) : a + b = ⟨a.x + b.x, a.y + b.y, a.z + b.z⟩ :=
  rfl

@[simp]
theorem Vec3.sub_def (a b : Vec3) : a - b = ⟨a.x - b.x, a.y - b.y, a.z - b.z⟩ :=
  rfl

@[simp]
theorem Vec3.neg_def (a : Vec3) : -a = ⟨-a.x, -a.y, -a.z⟩ :=
  rfl

@[simp]
theorem Vec3.smul_def (c : ℚ) (a : Vec3) : c • a = ⟨c * a.x, c * a.y, c * a.z⟩ :=
  rfl

@[simp]
theorem RVec3.zero_def_real : (0 : RVec3) = ⟨0, 0, 0⟩ :=
  rfl

@[simp]
theorem RVec3.add_def_real (a b : RVec3) : a + b = ⟨a.x + b.x, a.y + b.y, a.z + b.z⟩ :=
  rfl

@[simp]
theorem RVec3.sub_def_real (a b : RVec3) : a - b = ⟨a.x - b.x, a.y - b.y, a.z - b.z⟩ :=
  rfl

@[simp]
theorem RVec3.neg_def_real (a : RVec3) : -a = ⟨-a.x, -a.y, -a.z⟩ :=
  rfl

@[simp]
theorem RVec3.smul_def_real (c : ℝ) (a : RVec3) : c • a = ⟨c * a.x, c * a.y, c * a.z⟩ :=
  rfl

@[simp]
theorem Vec3.toR_def (v : Vec3) : v.toR = ⟨(v.x : ℝ), (v.y : ℝ), (v.z : ℝ)⟩ :=
  rfl

theorem Vec3.lengthSquared_nonneg (v : Vec3) : 0 ≤ v.lengthSquared := by
  have hx := mul_self_nonneg v.x
  have hy := mul_self_nonneg v.y
  have hz := mul_self_nonneg v.z
  unfold Vec3.lengthSquared
  linarith

theorem Vec3.lengthSquared_pos (v : Vec3) (hv : v ≠ 0) : 0 < v.lengthSquared := by
  rcases lt_or_eq_of_le (Vec3.lengthSquared_nonneg v) with h | h
  · exact h
  · exfalso
    apply hv
    have hx := mul_self_nonneg v.x
    have hy := mul_self_nonneg v.y
    have hz := mul_self_nonneg v.z
    unfold Vec3.lengthSquared at h
    have hx0 : v.x = 0 := by nlinarith
    have hy0 : v.y = 0 := by nlinarith
    have hz0 : v.z = 0 := by nlinarith
    rw [Vec3.zero_def]
    cases v with
    | mk a b c =>
      simp only [Vec3.mk.injEq]
      exact ⟨hx0, hy0, hz0⟩

theorem Vec3.distanceSquared_nonneg (a b : Vec3) : 0 ≤ Vec3.distanceSquared a b :=
  Vec3.lengthSquared_nonneg _

/-! Evaluation helper for the saturating cast. -/

theorem castU32_eq (q : ℚ) (n : ℕ) (h1 : (n : ℚ) ≤ q) (h2 : q < n + 1)
    (h3 : n ≤ 2 ^ 32 - 1) : castU32 q = n := by
  have hq : (0 : ℚ) ≤ q := le_trans (by positivity) h1
  have hfl : ⌊q⌋₊ = n := (Nat.floor_eq_iff hq).mpr ⟨h1, h2⟩
  unfold castU32
  rw [hfl]
  exact min_eq_left h3

/-! Selection lemmas: `argminIdx` returns the first element attaining the
minimal key. -/

theorem argminIdx_eq_none_iff {α : Type _} (key : α → ℕ) (l : List α) :
    argminIdx key l = none ↔ l = [] := by
  cases l with
  | nil => simp [argminIdx]
  | cons a l =>
    simp only [argminIdx]
    cases argminIdx key l with
    | none => simp
    | some p =>
      cases p with
      | mk j b =>
        by_cases h : key a ≤ key b <;> simp [h]

theorem argminIdx_get {α : Type _} (key : α → ℕ) (l : List α) (i : ℕ) (o : α)
    (h : argminIdx key l = some (i, o)) : l.get? i = some o := by
  induction l generalizing i o with
  | nil => simp [argminIdx] at h
  | cons a l ih =>
    simp only [argminIdx] at h
    split at h
    · simp only [Option.some.injEq, Prod.mk.injEq] at h
      obtain ⟨hi, ho⟩ := h
      subst hi
      subst ho
      rfl
    · rename_i j b hl
      split at h
      · simp only [Option.some.injEq, Prod.mk.injEq] at h
        obtain ⟨hi, ho⟩ := h
        subst hi
        subst ho
        rfl
      · simp only [Option.some.injEq, Prod.mk.injEq] at h
        obtain ⟨hi, ho⟩ := h
        rw [← hi, ← ho]
        simpa using ih j b hl

theorem argminIdx_mem {α : Type _} (key : α → ℕ) (l : List α) (i : ℕ) (o : α)
    (h : argminIdx key l = some (i, o)) : o ∈ l :=
  List.get?_mem (argminIdx_get key l i o h)

theorem argminIdx_le {α : Type _} (key : α → ℕ) (l : List α) (i : ℕ) (o : α)
    (h : argminIdx key l = some (i, o)) : ∀ b ∈ l, key o ≤ key b := by
  induction l generalizing i o with
  | nil => simp [argminIdx] at h
  | cons a l ih =>
    simp only [argminIdx] at h
    split at h
    · rename_i hl
      simp only [Option.some.injEq, Prod.mk.injEq] at h
      obtain ⟨hi, ho⟩ := h
      subst ho
      intro b hb
      rcases List.mem_cons.mp hb with hb | hb
      · subst hb
        exact le_refl _
      · exact absurd ((argminIdx_eq_none_iff key l).mp hl ▸ hb) (List.not_mem_nil b)
    · rename_i j c hl
      split at h
      · rename_i hk
        simp only [Option.some.injEq, Prod.mk.injEq] at h
        obtain ⟨hi, ho⟩ := h
        intro b hb
        rcases List.mem_cons.mp hb with hb | hb
        · rw [← ho, hb]
        · rw [← ho]
          exact le_trans hk (ih j c hl b hb)
      · rename_i hk
        simp only [Option.some.injEq, Prod.mk.injEq] at h
        obtain ⟨hi, ho⟩ := h
        intro b hb
        rcases List.mem_cons.mp hb with hb | hb
        · rw [← ho, hb]
          exact le_of_lt (lt_of_not_le hk)
        · rw [← ho]
          exact ih j c hl b hb

theorem argminIdx_first {α : Type _} (key : α → ℕ) (l : List α) (i : ℕ) (o : α)
    (h : argminIdx key l = some (i, o)) :
    ∀ j b, j < i → l.get? j = some b → key o < key b := by
  induction l generalizing i o with
  | nil => simp [argminIdx] at h
  | cons a l ih =>
    simp only [argminIdx] at h
    split at h
    · simp only [Option.some.injEq, Prod.mk.injEq] at h
      obtain ⟨hi, ho⟩ := h
      subst hi
      intro j b hj
      exact absurd hj (Nat.not_lt_zero j)
    · rename_i j' c hl
      split at h
      · rename_i hk
        simp only [Option.some.injEq, Prod.mk.injEq] at h
        obtain ⟨hi, ho⟩ := h
        subst hi
        intro j b hj
        exact absurd hj (Nat.not_lt_zero j)
      · rename_i hk
        simp only [Option.some.injEq, Prod.mk.injEq] at h
        obtain ⟨hi, ho⟩ := h
        intro j b hj hget
        rw [← ho]
        cases j with
        | zero =>
          have hb : a = b := by simpa using hget
          subst hb
          exact lt_of_not_le hk
        | succ j'' =>
          have hj'' : j'' < j' := by omega
          exact ih j' c hl j'' b hj'' (by simpa using hget)

/-! Norm lemmas for real vectors. -/

theorem RVec3.lengthSquared_nonneg_real (v : RVec3) : 0 ≤ v.lengthSquared := by
  unfold RVec3.lengthSquared
  nlinarith [mul_self_nonneg v.x, mul_self_nonneg v.y, mul_self_nonneg v.z]

theorem RVec3.norm_nonneg (v : RVec3) : 0 ≤ v.norm :=
  Real.sqrt_nonneg _

theorem RVec3.lengthSquared_smul (c : ℝ) (v : RVec3) :
    (c • v).lengthSquared = c ^ 2 * v.lengthSquared := by
  simp only [RVec3.smul_def_real, RVec3.lengthSquared]
  ring

theorem RVec3.norm_smul (c : ℝ) (v : RVec3) : (c • v).norm = |c| * v.norm := by
  unfold RVec3.norm
  rw [RVec3.lengthSquared_smul, Real.sqrt_mul (sq_nonneg c), Real.sqrt_sq_eq_abs]

theorem RVec3.norm_neg (v : RVec3) : (-v).norm = v.norm := by
  unfold RVec3.norm
  congr 1
  simp only [RVec3.neg_def_real, RVec3.lengthSquared]
  ring

theorem RVec3.norm_add_le (a b : RVec3) : (a + b).norm ≤ a.norm + b.norm := by
  have hA := RVec3.lengthSquared_nonneg_real a
  have hB := RVec3.lengthSquared_nonneg_real b
  have hna := RVec3.norm_nonneg a
  have hnb := RVec3.norm_nonneg b
  have hsqa : a.norm ^ 2 = a.lengthSquared := Real.sq_sqrt hA
  have hsqb : b.norm ^ 2 = b.lengthSquared := Real.sq_sqrt hB
  have hdot : a.x * b.x + a.y * b.y + a.z * b.z ≤ a.norm * b.norm := by
    rcases le_or_lt (a.x * b.x + a.y * b.y + a.z * b.z) 0 with h | h
    · exact le_trans h (mul_nonneg hna hnb)
    · have h2 : (a.x * b.x + a.y * b.y + a.z * b.z) ^ 2 ≤ (a.norm * b.norm) ^ 2 := by
        rw [mul_pow, hsqa, hsqb]
        unfold RVec3.lengthSquared
        nlinarith [sq_nonneg (a.x * b.y - a.y * b.x), sq_nonneg (a.x * b.z - a.z * b.x),
          sq_nonneg (a.y * b.z - a.z * b.y)]
      have h3 : 0 ≤ a.norm * b.norm := mul_nonneg hna hnb
      nlinarith [h2, h3, h]
  have hlen : (a + b).lengthSquared ≤ (a.norm + b.norm) ^ 2 := by
    have hexp : (a + b).lengthSquared =
        a.lengthSquared + 2 * (a.x * b.x + a.y * b.y + a.z * b.z) + b.lengthSquared := by
      simp only [RVec3.add_def_real, RVec3.lengthSquared]
      ring
    rw [hexp]
    nlinarith [hdot, hsqa, hsqb]
  calc (a + b).norm = Real.sqrt (a + b).lengthSquared := rfl
    _ ≤ Real.sqrt ((a.norm + b.norm) ^ 2) := Real.sqrt_le_sqrt hlen
    _ = a.norm + b.norm := Real.sqrt_sq (by positivity)

theorem RVec3.norm_sub_le (a b : RVec3) : (a - b).norm ≤ a.norm + b.norm := by
  have h1 : a - b = a + -b := by
    simp only [RVec3.sub_def_real, RVec3.add_def_real, RVec3.neg_def_real, RVec3.mk.injEq]
    refine ⟨by ring, by ring, by ring⟩
  rw [h1]
  have h2 := RVec3.norm_add_le a (-b)
  rwa [RVec3.norm_neg] at h2

theorem Vec3.lengthSquared_toR (v : Vec3) : v.toR.lengthSquared = (v.lengthSquared : ℝ) := by
  simp only [Vec3.toR_def, RVec3.lengthSquared, Vec3.lengthSquared]
  push_cast
  ring

theorem Vec3.norm_normalizeOrZero_le_one (v : Vec3) : v.normalizeOrZero.norm ≤ 1 := by
  unfold Vec3.normalizeOrZero
  split
  · have h0 : (0 : RVec3).norm = 0 := by
      unfold RVec3.norm
      have hl : (0 : RVec3).lengthSquared = 0 := by
        simp only [RVec3.zero_def_real, RVec3.lengthSquared]
        norm_num
      rw [hl, Real.sqrt_zero]
    rw [h0]
    norm_num
  · rename_i hv
    have hpos : 0 < v.lengthSquared := Vec3.lengthSquared_pos v hv
    have hposR : (0 : ℝ) < (v.lengthSquared : ℝ) := by exact_mod_cast hpos
    have hsq : 0 < Real.sqrt (v.lengthSquared : ℝ) := Real.sqrt_pos.mpr hposR
    rw [RVec3.norm_smul]
    have hn : v.toR.norm = Real.sqrt (v.lengthSquared : ℝ) := by
      unfold RVec3.norm
      rw [Vec3.lengthSquared_toR]
    rw [hn, abs_inv, abs_of_pos hsq, inv_mul_cancel₀ (ne_of_gt hsq)]

/-! Claim theorems. -/

/-- C6: on a tick with an empty capturable-object set the catch controller
performs no action for every trigger state: the object list is returned
unchanged, and no error can be raised since the controller is a total
function. -/
theorem playerCatch_empty_noop (p jr : Bool) (mcs ts : ℚ) (cp cd : Vec3) :
    playerCatch p jr mcs ts cp cd [] = [] :=
  rfl

/-- C2: on a tick where the trigger is pressed and an object is selected,
the impulse written to the selected object equals the spec formula
`(normalize_or_zero(dp) * min(10 * dist2, s_max) - linvel) * mass` with gain
`k_p = 10` and cap `s_max` taken from the player configuration default
`max_catch_speed = 100`; no other list entry changes. -/
theorem playerCatch_hold_impulse_formula (jr : Bool) (ts : ℚ) (cp cd : Vec3)
    (objs : List CatchObject) (i : ℕ) (o : CatchObject)
    (hsel : argminIdx (fun b => catchKey cp b.position) objs = some (i, o)) :
    playerCatch true jr Player.default.maxCatchSpeed ts cp cd objs =
      objs.set i
        { o with impulse :=
            specHoldImpulse 10 Player.default.maxCatchSpeed (cp - o.position) o.linvel o.mass } := by
  unfold playerCatch
  rw [hsel]
  rfl

/-- C3: on a tick where the trigger is just released (and not pressed) and
an object is selected, the impulse written to the selected object equals the
spec formula `F_c * (throw_speed / (dist2 + 1)) * mass` with
`throw_speed = 200` from the player configuration default, and the scalar
factor on the catcher forward vector is positive, so the impulse points
along the facing direction independently of where the object is. -/
theorem playerCatch_release_impulse_formula (mcs : ℚ) (cp cd : Vec3)
    (objs : List CatchObject) (i : ℕ) (o : CatchObject)
    (hsel : argminIdx (fun b => catchKey cp b.position) objs = some (i, o)) :
    playerCatch false true mcs Player.default.throwSpeed cp cd objs =
      objs.set i
        { o with impulse := specReleaseImpulse 200 cd (cp - o.position) o.mass } ∧
    0 < (200 : ℚ) / ((cp - o.position).lengthSquared + 1) := by
  have hts : Player.default.throwSpeed = 200 := rfl
  constructor
  · have hri : releaseImpulse 200 (cp - o.position) cd o.mass =
        specReleaseImpulse 200 cd (cp - o.position) o.mass := by
      unfold releaseImpulse specReleaseImpulse releaseSpeed
      congr 1
      simp only [Vec3.smul_def, Vec3.mk.injEq]
      refine ⟨by ring, by ring, by ring⟩
    rw [← hri, hts]
    unfold playerCatch
    rw [hsel]
    rfl
  · have h0 : (0 : ℚ) ≤ (cp - o.position).lengthSquared := Vec3.lengthSquared_nonneg _
    exact div_pos (by norm_num) (by linarith)

/-- C7: when the trigger is held and the selected object sits exactly at
the catcher position, the guarded normalization returns the zero vector
(no NaN and no division by zero), the desired speed is `0`, and the written
impulse is `-(mass * linvel)`, bringing the object to rest. -/
theorem playerCatch_zero_delta (jr : Bool) (ts : ℚ) (cp cd : Vec3)
    (objs : List CatchObject) (i : ℕ) (o : CatchObject)
    (hsel : argminIdx (fun b => catchKey cp b.position) objs = some (i, o))
    (hpos : o.position = cp) :
    Vec3.normalizeOrZero (cp - o.position) = 0 ∧
    min (10 * (cp - o.position).lengthSquared) Player.default.maxCatchSpeed = 0 ∧
    playerCatch true jr Player.default.maxCatchSpeed ts cp cd objs =
      objs.set i { o with impulse := (-(o.mass • o.linvel)).toR } := by
  have hmcs : Player.default.maxCatchSpeed = 100 := rfl
  have hdz : cp - o.position = 0 := by
    rw [hpos]
    simp only [Vec3.sub_def, Vec3.zero_def, Vec3.mk.injEq]
    exact ⟨sub_self _, sub_self _, sub_self _⟩
  have hnz : Vec3.normalizeOrZero (cp - o.position) = 0 := by
    rw [hdz]
    unfold Vec3.normalizeOrZero
    rw [if_pos rfl]
  have hl2 : (cp - o.position).lengthSquared = 0 := by
    rw [hdz]
    simp [Vec3.lengthSquared]
  have hmin : min (10 * (cp - o.position).lengthSquared) Player.default.maxCatchSpeed = 0 := by
    rw [hl2, mul_zero, hmcs]
    exact min_eq_left (by norm_num)
  refine ⟨hnz, hmin, ?_⟩
  have h1 : playerCatch true jr Player.default.maxCatchSpeed ts cp cd objs =
      objs.set i
        { o with impulse :=
            holdImpulse Player.default.maxCatchSpeed (cp - o.position) o.linvel o.mass } := by
    unfold playerCatch
    rw [hsel]
    rfl
  rw [h1]
  have h2 : holdImpulse Player.default.maxCatchSpeed (cp - o.position) o.linvel o.mass =
      (-(o.mass • o.linvel)).toR := by
    unfold holdImpulse
    rw [hmin, hnz]
    simp only [RVec3.smul_def_real, RVec3.sub_def_real, RVec3.zero_def_real, Vec3.toR_def, Vec3.neg_def,
      Vec3.smul_def, RVec3.mk.injEq]
    push_cast
    refine ⟨by ring, by ring, by ring⟩
  rw [h2]

/-- C8: the desired approach speed while holding never exceeds the
configured cap `s_max = 100`, and the magnitude of the hold impulse is
bounded by `(s_max + norm(linvel)) * mass`: it does not grow unbounded with
distance. -/
theorem holdImpulse_bounded (dp v : Vec3) (m : ℚ) (hm : 0 ≤ m) :
    min (10 * dp.lengthSquared) Player.default.maxCatchSpeed ≤ 100 ∧
    (holdImpulse Player.default.maxCatchSpeed dp v m).norm ≤
      (100 + v.toR.norm) * (m : ℝ) := by
  have hmcs : Player.default.maxCatchSpeed = 100 := rfl
  rw [hmcs]
  refine ⟨min_le_right _ _, ?_⟩
  unfold holdImpulse
  have hs0 : (0 : ℚ) ≤ min (10 * dp.lengthSquared) 100 :=
    le_min (by nlinarith [Vec3.lengthSquared_nonneg dp]) (by norm_num)
  have hs100 : min (10 * dp.lengthSquared) 100 ≤ 100 := min_le_right _ _
  have hsR0 : (0 : ℝ) ≤ ((min (10 * dp.lengthSquared) 100 : ℚ) : ℝ) := by exact_mod_cast hs0
  have hsR100 : ((min (10 * dp.lengthSquared) 100 : ℚ) : ℝ) ≤ 100 := by exact_mod_cast hs100
  have hmR : (0 : ℝ) ≤ (m : ℝ) := by exact_mod_cast hm
  rw [RVec3.norm_smul]
  have h1 : (((min (10 * dp.lengthSquared) 100 : ℚ) : ℝ) • dp.normalizeOrZero - v.toR).norm ≤
      ((min (10 * dp.lengthSquared) 100 : ℚ) : ℝ) * dp.normalizeOrZero.norm + v.toR.norm := by
    have h := RVec3.norm_sub_le
      (((min (10 * dp.lengthSquared) 100 : ℚ) : ℝ) • dp.normalizeOrZero) v.toR
    rwa [RVec3.norm_smul, abs_of_nonneg hsR0] at h
  have h2 : ((min (10 * dp.lengthSquared) 100 : ℚ) : ℝ) * dp.normalizeOrZero.norm ≤ 100 := by
    have hle1 := Vec3.norm_normalizeOrZero_le_one dp
    have hnn := RVec3.norm_nonneg dp.normalizeOrZero
    nlinarith
  rw [abs_of_nonneg hmR]
  calc (m : ℝ) * (((min (10 * dp.lengthSquared) 100 : ℚ) : ℝ) • dp.normalizeOrZero - v.toR).norm
      ≤ (m : ℝ) * (100 + v.toR.norm) := by
        apply mul_le_mul_of_nonneg_left (by linarith) hmR
    _ = (100 + v.toR.norm) * (m : ℝ) := by ring

/-- C9: the release launch speed `throw_speed / (dist2 + 1)` is strictly
decreasing in the squared distance, equals `throw_speed` at zero distance,
is positive, and falls below every positive bound for large enough squared
distance. -/
theorem releaseSpeed_strict_decreasing (d1 d2 : ℚ) (h0 : 0 ≤ d1) (h12 : d1 < d2) :
    releaseSpeed Player.default.throwSpeed d2 < releaseSpeed Player.default.throwSpeed d1 ∧
    releaseSpeed Player.default.throwSpeed 0 = Player.default.throwSpeed ∧
    0 < releaseSpeed Player.default.throwSpeed d2 ∧
    ∀ ε : ℚ, 0 < ε → ∃ D : ℚ, ∀ d, D ≤ d →
      releaseSpeed Player.default.throwSpeed d < ε := by
  have hts : Player.default.throwSpeed = 200 := rfl
  rw [hts]
  unfold releaseSpeed
  have h1 : (0 : ℚ) < d1 + 1 := by linarith
  have h2 : (0 : ℚ) < d2 + 1 := by linarith
  refine ⟨?_, by norm_num, ?_, ?_⟩
  · have hlt : 1 / (d2 + 1) < 1 / (d1 + 1) := by
      apply one_div_lt_one_div_of_lt h1
      linarith
    exact mul_lt_mul_of_pos_right hlt (by norm_num)
  · exact mul_pos (one_div_pos.mpr h2) (by norm_num)
  · intro ε hε
    refine ⟨200 / ε, ?_⟩
    intro d hd
    have hd0 : (0 : ℚ) < 200 / ε := by positivity
    have hdpos : 0 < d := lt_of_lt_of_le hd0 hd
    have hd1 : (0 : ℚ) < d + 1 := by linarith
    have h200 : 200 ≤ d * ε := by
      rw [div_le_iff₀ hε] at hd
      exact hd
    have heq : 1 / (d + 1) * 200 = 200 / (d + 1) := by ring
    rw [heq, div_lt_iff₀ hd1]
    nlinarith

/-- C1 (amended): the object selected by the catch controller minimizes the
u32-truncated squared-distance key (not the exact squared distance), and
among objects attaining the minimal key the first in query iteration order
is selected deterministically. -/
theorem playerCatch_selects_min_key (cp : Vec3) (objs : List CatchObject)
    (i : ℕ) (o : CatchObject)
    (hsel : argminIdx (fun b => catchKey cp b.position) objs = some (i, o)) :
    objs.get? i = some o ∧ o ∈ objs ∧
    (∀ b ∈ objs, catchKey cp o.position ≤ catchKey cp b.position) ∧
    ∀ j b, j < i → objs.get? j = some b →
      catchKey cp o.position < catchKey cp b.position :=
  ⟨argminIdx_get _ objs i o hsel, argminIdx_mem _ objs i o hsel,
    argminIdx_le _ objs i o hsel, argminIdx_first _ objs i o hsel⟩

/-- C1 (counterexample): catcher at the origin, first object at squared
distance `49/25`, second object at squared distance `1`.  Both keys truncate
to `1`, the controller selects and (on release) acts on the first object,
yet the second object is strictly closer: the selected object is not a
minimizer of the exact squared distance. -/
theorem playerCatch_selects_nonminimizer :
    argminIdx (fun b => catchKey ⟨0, 0, 0⟩ b.position)
        [(⟨⟨0, 0, 0⟩, ⟨0, 0, 0⟩, 1, ⟨7 / 5, 0, 0⟩⟩ : CatchObject),
          ⟨⟨0, 0, 0⟩, ⟨0, 0, 0⟩, 1, ⟨1, 0, 0⟩⟩] =
      some (0, ⟨⟨0, 0, 0⟩, ⟨0, 0, 0⟩, 1, ⟨7 / 5, 0, 0⟩⟩) ∧
    Vec3.distanceSquared ⟨1, 0, 0⟩ ⟨0, 0, 0⟩ <
      Vec3.distanceSquared ⟨7 / 5, 0, 0⟩ ⟨0, 0, 0⟩ ∧
    playerCatch false true 100 200 ⟨0, 0, 0⟩ ⟨0, 0, 1⟩
        [(⟨⟨0, 0, 0⟩, ⟨0, 0, 0⟩, 1, ⟨7 / 5, 0, 0⟩⟩ : CatchObject),
          ⟨⟨0, 0, 0⟩, ⟨0, 0, 0⟩, 1, ⟨1, 0, 0⟩⟩] =
      [⟨releaseImpulse 200 ((⟨0, 0, 0⟩ : Vec3) - ⟨7 / 5, 0, 0⟩) ⟨0, 0, 1⟩ 1,
          ⟨0, 0, 0⟩, 1, ⟨7 / 5, 0, 0⟩⟩,
        ⟨⟨0, 0, 0⟩, ⟨0, 0, 0⟩, 1, ⟨1, 0, 0⟩⟩] := by
  have hd1 : Vec3.distanceSquared (⟨7 / 5, 0, 0⟩ : Vec3) ⟨0, 0, 0⟩ = 49 / 25 := by
    simp only [Vec3.distanceSquared, Vec3.sub_def, Vec3.lengthSquared]
    norm_num
  have hd2 : Vec3.distanceSquared (⟨1, 0, 0⟩ : Vec3) ⟨0, 0, 0⟩ = 1 := by
    simp only [Vec3.distanceSquared, Vec3.sub_def, Vec3.lengthSquared]
    norm_num
  have hk1 : catchKey ⟨0, 0, 0⟩ ⟨7 / 5, 0, 0⟩ = 1 := by
    unfold catchKey
    rw [hd1]
    exact castU32_eq _ 1 (by norm_num) (by norm_num) (by norm_num)
  have hk2 : catchKey ⟨0, 0, 0⟩ ⟨1, 0, 0⟩ = 1 := by
    unfold catchKey
    rw [hd2]
    exact castU32_eq _ 1 (by norm_num) (by norm_num) (by norm_num)
  have hsel : argminIdx (fun b => catchKey ⟨0, 0, 0⟩ b.position)
      [(⟨⟨0, 0, 0⟩, ⟨0, 0, 0⟩, 1, ⟨7 / 5, 0, 0⟩⟩ : CatchObject),
        ⟨⟨0, 0, 0⟩, ⟨0, 0, 0⟩, 1, ⟨1, 0, 0⟩⟩] =
      some (0, ⟨⟨0, 0, 0⟩, ⟨0, 0, 0⟩, 1, ⟨7 / 5, 0, 0⟩⟩) := by
    simp [argminIdx, hk1, hk2]
  refine ⟨hsel, ?_, ?_⟩
  · rw [hd1, hd2]
    norm_num
  · unfold playerCatch
    rw [hsel]
    rfl

/-- C4: the selection key is the squared distance truncated by the
saturating u32 cast (integer part, clamped at the largest u32); two objects
whose exact squared distances share the same integer part get equal keys; a
two-object tie resolves to the first object in iteration order; and the
selected object always minimizes the truncated key. -/
theorem catchKey_truncated_cast_tie (cp : Vec3) (a b : CatchObject)
    (hfloor : ⌊Vec3.distanceSquared a.position cp⌋₊ =
      ⌊Vec3.distanceSquared b.position cp⌋₊) :
    (∀ p : Vec3, catchKey cp p = min ⌊Vec3.distanceSquared p cp⌋₊ (2 ^ 32 - 1)) ∧
    catchKey cp a.position = catchKey cp b.position ∧
    argminIdx (fun x => catchKey cp x.position) [a, b] = some (0, a) ∧
    ∀ (objs : List CatchObject) (i : ℕ) (o : CatchObject),
      argminIdx (fun x => catchKey cp x.position) objs = some (i, o) →
      ∀ c ∈ objs, catchKey cp o.position ≤ catchKey cp c.position := by
  have hkey : catchKey cp a.position = catchKey cp b.position := by
    unfold catchKey castU32
    rw [hfloor]
  refine ⟨fun p => rfl, hkey, ?_, ?_⟩
  · simp [argminIdx, hkey]
  · intro objs i o hsel c hc
    exact argminIdx_le _ objs i o hsel c hc

/-- C5: for a single press-then-release transition at tick `T`, the release
impulse is written exactly on tick `T`; on every later tick no impulse is
written at all; before `T` the trigger is pressed and the release flag is
off, so the release branch cannot run; and for every input trace the
pressed and just-released signals are mutually exclusive on every tick. -/
theorem release_edge_fires_once (press : ℕ → Bool) (T : ℕ) (mcs ts : ℚ)
    (cp cd : Vec3) (objs : List CatchObject) (i : ℕ) (o : CatchObject)
    (hT : 1 ≤ T) (hpress : ∀ t, press t = decide (t < T))
    (hsel : argminIdx (fun b => catchKey cp b.position) objs = some (i, o)) :
    (press T = false ∧ justReleased press T = true) ∧
    playerCatch (press T) (justReleased press T) mcs ts cp cd objs =
      objs.set i { o with impulse := releaseImpulse ts (cp - o.position) cd o.mass } ∧
    (∀ t, T < t → playerCatch (press t) (justReleased press t) mcs ts cp cd objs = objs) ∧
    (∀ t, t < T → press t = true ∧ justReleased press t = false) ∧
    ∀ (q : ℕ → Bool) (t : ℕ), ¬(q t = true ∧ justReleased q t = true) := by
  obtain ⟨S, rfl⟩ : ∃ S, T = S + 1 := ⟨T - 1, by omega⟩
  have hpT : press (S + 1) = false := by
    rw [hpress]
    simp
  have hjT : justReleased press (S + 1) = true := by
    simp only [justReleased]
    rw [hpress S, hpress (S + 1)]
    simp
  refine ⟨⟨hpT, hjT⟩, ?_, ?_, ?_, ?_⟩
  · rw [hpT, hjT]
    unfold playerCatch
    rw [hsel]
    rfl
  · intro t ht
    have hpt : press t = false := by
      rw [hpress]
      simp only [decide_eq_false_iff_not]
      omega
    have hjt : justReleased press t = false := by
      cases t with
      | zero => rfl
      | succ s =>
        simp only [justReleased]
        rw [hpress s]
        have hns : ¬s < S + 1 := by omega
        simp [hns]
    rw [hpt, hjt]
    unfold playerCatch
    rw [hsel]
    rfl
  · intro t ht
    constructor
    · rw [hpress]
      simp [ht]
    · cases t with
      | zero => rfl
      | succ s =>
        simp only [justReleased]
        rw [hpress (s + 1)]
        simp [ht]
  · intro q t h
    obtain ⟨h1, h2⟩ := h
    cases t with
    | zero => simp [justReleased] at h2
    | succ s =>
      simp only [justReleased] at h2
      rw [h1] at h2
      simp at h2

/-- C10 (counterexample): on an idle tick (trigger neither pressed nor just
released) with a nonempty object set, the controller writes nothing at all:
the output list equals the input list, so it is not the case that exactly
one impulse accumulator is mutated on every tick. -/
theorem playerCatch_idle_writes_nothing :
    playerCatch false false 100 200 ⟨0, 0, 0⟩ ⟨0, 0, 1⟩
        [(⟨⟨0, 0, 0⟩, ⟨0, 0, 0⟩, 1, ⟨0, 0, 5⟩⟩ : CatchObject)] =
      [(⟨⟨0, 0, 0⟩, ⟨0, 0, 0⟩, 1, ⟨0, 0, 5⟩⟩ : CatchObject)] ∧
    ([(⟨⟨0, 0, 0⟩, ⟨0, 0, 0⟩, 1, ⟨0, 0, 5⟩⟩ : CatchObject)] : List CatchObject) ≠ [] :=
  ⟨rfl, by simp⟩

/-- C10 (amended): on every tick the controller changes at most the impulse
accumulator of the single selected object: list length is preserved;
position, velocity and mass of every entry are unchanged; non-selected
entries are unchanged; the impulse write happens exactly when the trigger
is pressed or just released and an object is selected, with the hold and
release formulas respectively; on an idle tick, or when no object is
selected, nothing at all is written. -/
theorem playerCatch_frame_effects (p jr : Bool) (mcs ts : ℚ) (cp cd : Vec3)
    (objs : List CatchObject) :
    (playerCatch p jr mcs ts cp cd objs).length = objs.length ∧
    (∀ j oj rj, objs.get? j = some oj →
      (playerCatch p jr mcs ts cp cd objs).get? j = some rj →
      rj.position = oj.position ∧ rj.linvel = oj.linvel ∧ rj.mass = oj.mass) ∧
    (∀ i o, argminIdx (fun b => catchKey cp b.position) objs = some (i, o) →
      (∀ j, j ≠ i → (playerCatch p jr mcs ts cp cd objs).get? j = objs.get? j) ∧
      (p = true → playerCatch p jr mcs ts cp cd objs =
        objs.set i { o with impulse := holdImpulse mcs (cp - o.position) o.linvel o.mass }) ∧
      (p = false → jr = true → playerCatch p jr mcs ts cp cd objs =
        objs.set i { o with impulse := releaseImpulse ts (cp - o.position) cd o.mass })) ∧
    (p = false → jr = false → playerCatch p jr mcs ts cp cd objs = objs) ∧
    (argminIdx (fun b => catchKey cp b.position) objs = none →
      playerCatch p jr mcs ts cp cd objs = objs) := by
  cases hs : argminIdx (fun b => catchKey cp b.position) objs with
  | none =>
    have hout : playerCatch p jr mcs ts cp cd objs = objs := by
      unfold playerCatch
      rw [hs]
    rw [hout]
    refine ⟨rfl, ?_, ?_, fun _ _ => rfl, fun _ => rfl⟩
    · intro j oj rj h1 h2
      rw [h1] at h2
      have : oj = rj := Option.some.inj h2
      subst this
      exact ⟨rfl, rfl, rfl⟩
    · intro i o h'
      simp at h'
  | some io =>
    obtain ⟨i0, o0⟩ := io
    have hget0 : objs.get? i0 = some o0 := argminIdx_get _ objs i0 o0 hs
    have hlt0 : i0 < objs.length := by
      rw [List.get?_eq_some] at hget0
      exact hget0.1
    have hget0' : objs.get? i0 = some o0 := argminIdx_get _ objs i0 o0 hs
    have hchar : (p = false ∧ jr = false ∧ playerCatch p jr mcs ts cp cd objs = objs) ∨
        (p = true ∧ playerCatch p jr mcs ts cp cd objs =
          objs.set i0
            { o0 with impulse := holdImpulse mcs (cp - o0.position) o0.linvel o0.mass }) ∨
        (p = false ∧ jr = true ∧ playerCatch p jr mcs ts cp cd objs =
          objs.set i0
            { o0 with impulse := releaseImpulse ts (cp - o0.position) cd o0.mass }) := by
      cases p with
      | false =>
        cases jr with
        | false =>
          left
          refine ⟨rfl, rfl, ?_⟩
          unfold playerCatch
          rw [hs]
          rfl
        | true =>
          right
          right
          refine ⟨rfl, rfl, ?_⟩
          unfold playerCatch
          rw [hs]
          rfl
      | true =>
        right
        left
        refine ⟨rfl, ?_⟩
        unfold playerCatch
        rw [hs]
        rfl
    have hout : playerCatch p jr mcs ts cp cd objs = objs ∨
        ∃ w, playerCatch p jr mcs ts cp cd objs =
          objs.set i0 { o0 with impulse := w } := by
      rcases hchar with ⟨_, _, h⟩ | ⟨_, h⟩ | ⟨_, _, h⟩
      · exact Or.inl h
      · exact Or.inr ⟨_, h⟩
      · exact Or.inr ⟨_, h⟩
    refine ⟨?_, ?_, ?_, ?_, ?_⟩
    · rcases hout with h | ⟨w, h⟩
      · rw [h]
      · rw [h]
        exact List.length_set objs i0 _
    · intro j oj rj h1 h2
      rcases hout with h | ⟨w, h⟩
      · rw [h, h1] at h2
        have : oj = rj := Option.some.inj h2
        subst this
        exact ⟨rfl, rfl, rfl⟩
      · rw [h] at h2
        by_cases hj : j = i0
        · subst hj
          rw [List.get?_set_eq_of_lt _ hlt0] at h2
          have hrj : ({ o0 with impulse := w } : CatchObject) = rj := Option.some.inj h2
          have hoj : o0 = oj := by
            rw [hget0] at h1
            exact Option.some.inj h1
          rw [← hrj, ← hoj]
          exact ⟨rfl, rfl, rfl⟩
        · rw [List.get?_set_ne _ _ (fun heq => hj heq.symm)] at h2
          rw [h1] at h2
          have : oj = rj := Option.some.inj h2
          subst this
          exact ⟨rfl, rfl, rfl⟩
    · intro i o h'
      have hio : i0 = i ∧ o0 = o := by
        have h2 := Option.some.inj h'
        exact ⟨congrArg Prod.fst h2, congrArg Prod.snd h2⟩
      obtain ⟨hi0, ho0⟩ := hio
      subst hi0
      subst ho0
      refine ⟨?_, ?_, ?_⟩
      · intro j hj
        rcases hout with h | ⟨w, h⟩
        · rw [h]
        · rw [h]
          exact List.get?_set_ne _ _ (fun heq => hj heq.symm)
      · intro hp
        rcases hchar with ⟨hpf, _, _⟩ | ⟨_, h⟩ | ⟨hpf, _, _⟩
        · rw [hp] at hpf
          cases hpf
        · exact h
        · rw [hp] at hpf
          cases hpf
      · intro hp hjr
        rcases hchar with ⟨_, hjf, _⟩ | ⟨hpt, _⟩ | ⟨_, _, h⟩
        · rw [hjr] at hjf
          cases hjf
        · rw [hp] at hpt
          cases hpt
        · exact h
    · intro hp hjr
      rcases hchar with ⟨_, _, h⟩ | ⟨hpt, _⟩ | ⟨_, hjt, _⟩
      · exact h
      · rw [hp] at hpt
        cases hpt
      · rw [hjt] at hjr
        cases hjr
    · intro h'
      cases h'


/-! Witness instances: each hypothesis-bearing claim theorem applied at a
concrete input. -/

/-- Witness for the amended C1 theorem at a one-object list. -/
theorem playerCatch_selects_min_key_witness :
    ([(⟨⟨0, 0, 0⟩, ⟨0, 0, 0⟩, 1, ⟨0, 0, 5⟩⟩ : CatchObject)] : List CatchObject).get? 0 =
      some ⟨⟨0, 0, 0⟩, ⟨0, 0, 0⟩, 1, ⟨0, 0, 5⟩⟩ :=
  (playerCatch_selects_min_key ⟨0, 0, 0⟩ [⟨⟨0, 0, 0⟩, ⟨0, 0, 0⟩, 1, ⟨0, 0, 5⟩⟩] 0
    ⟨⟨0, 0, 0⟩, ⟨0, 0, 0⟩, 1, ⟨0, 0, 5⟩⟩ rfl).1

/-- Witness for C2 at the spec scenario: catcher at the origin, object at
`(0,0,5)` with mass `2`. -/
theorem playerCatch_hold_impulse_formula_witness :
    playerCatch true false Player.default.maxCatchSpeed 200 ⟨0, 0, 0⟩ ⟨0, 0, 1⟩
        [⟨⟨0, 0, 0⟩, ⟨0, 0, 0⟩, 2, ⟨0, 0, 5⟩⟩] =
      List.set [⟨⟨0, 0, 0⟩, ⟨0, 0, 0⟩, 2, ⟨0, 0, 5⟩⟩] 0
        ⟨specHoldImpulse 10 Player.default.maxCatchSpeed
            ((⟨0, 0, 0⟩ : Vec3) - ⟨0, 0, 5⟩) ⟨0, 0, 0⟩ 2,
          ⟨0, 0, 0⟩, 2, ⟨0, 0, 5⟩⟩ :=
  playerCatch_hold_impulse_formula false 200 ⟨0, 0, 0⟩ ⟨0, 0, 1⟩
    [⟨⟨0, 0, 0⟩, ⟨0, 0, 0⟩, 2, ⟨0, 0, 5⟩⟩] 0 ⟨⟨0, 0, 0⟩, ⟨0, 0, 0⟩, 2, ⟨0, 0, 5⟩⟩ rfl

/-- Witness for C3 at the spec scenario: object at `(0,0,5)`, mass `2`. -/
theorem playerCatch_release_impulse_formula_witness :
    playerCatch false true 100 Player.default.throwSpeed ⟨0, 0, 0⟩ ⟨0, 0, 1⟩
        [⟨⟨0, 0, 0⟩, ⟨0, 0, 0⟩, 2, ⟨0, 0, 5⟩⟩] =
      List.set [⟨⟨0, 0, 0⟩, ⟨0, 0, 0⟩, 2, ⟨0, 0, 5⟩⟩] 0
        ⟨specReleaseImpulse 200 ⟨0, 0, 1⟩ ((⟨0, 0, 0⟩ : Vec3) - ⟨0, 0, 5⟩) 2,
          ⟨0, 0, 0⟩, 2, ⟨0, 0, 5⟩⟩ ∧
    0 < (200 : ℚ) / (((⟨0, 0, 0⟩ : Vec3) - ⟨0, 0, 5⟩).lengthSquared + 1) :=
  playerCatch_release_impulse_formula 100 ⟨0, 0, 0⟩ ⟨0, 0, 1⟩
    [⟨⟨0, 0, 0⟩, ⟨0, 0, 0⟩, 2, ⟨0, 0, 5⟩⟩] 0 ⟨⟨0, 0, 0⟩, ⟨0, 0, 0⟩, 2, ⟨0, 0, 5⟩⟩ rfl

/-- Witness for C4: two objects at squared distances `49/25` and `1`, whose
integer parts agree, tie and resolve to the first in iteration order. -/
theorem catchKey_truncated_cast_tie_witness :
    argminIdx (fun x => catchKey ⟨0, 0, 0⟩ x.position)
        [(⟨⟨0, 0, 0⟩, ⟨0, 0, 0⟩, 2, ⟨7 / 5, 0, 0⟩⟩ : CatchObject),
          ⟨⟨0, 0, 0⟩, ⟨0, 0, 0⟩, 2, ⟨1, 0, 0⟩⟩] =
      some (0, ⟨⟨0, 0, 0⟩, ⟨0, 0, 0⟩, 2, ⟨7 / 5, 0, 0⟩⟩) := by
  refine (catchKey_truncated_cast_tie ⟨0, 0, 0⟩
    ⟨⟨0, 0, 0⟩, ⟨0, 0, 0⟩, 2, ⟨7 / 5, 0, 0⟩⟩ ⟨⟨0, 0, 0⟩, ⟨0, 0, 0⟩, 2, ⟨1, 0, 0⟩⟩ ?_).2.2.1
  show ⌊Vec3.distanceSquared (⟨7 / 5, 0, 0⟩ : Vec3) ⟨0, 0, 0⟩⌋₊ =
    ⌊Vec3.distanceSquared (⟨1, 0, 0⟩ : Vec3) ⟨0, 0, 0⟩⌋₊
  have h1 : Vec3.distanceSquared (⟨7 / 5, 0, 0⟩ : Vec3) ⟨0, 0, 0⟩ = 49 / 25 := by
    simp only [Vec3.distanceSquared, Vec3.sub_def, Vec3.lengthSquared]
    norm_num
  have h2 : Vec3.distanceSquared (⟨1, 0, 0⟩ : Vec3) ⟨0, 0, 0⟩ = 1 := by
    simp only [Vec3.distanceSquared, Vec3.sub_def, Vec3.lengthSquared]
    norm_num
  rw [h1, h2]
  have h3 : ⌊(49 / 25 : ℚ)⌋₊ = 1 := (Nat.floor_eq_iff (by norm_num)).mpr (by norm_num)
  have h4 : ⌊(1 : ℚ)⌋₊ = 1 := Nat.floor_one
  rw [h3, h4]

/-- Witness for C5: trigger pressed on ticks 0 and 1, released from tick 2
on; the release write fires on tick 2. -/
theorem release_edge_fires_once_witness :
    playerCatch false true 100 200 ⟨0, 0, 0⟩ ⟨0, 0, 1⟩
        [⟨⟨0, 0, 0⟩, ⟨0, 0, 0⟩, 1, ⟨0, 0, 5⟩⟩] =
      List.set [⟨⟨0, 0, 0⟩, ⟨0, 0, 0⟩, 1, ⟨0, 0, 5⟩⟩] 0
        ⟨releaseImpulse 200 ((⟨0, 0, 0⟩ : Vec3) - ⟨0, 0, 5⟩) ⟨0, 0, 1⟩ 1,
          ⟨0, 0, 0⟩, 1, ⟨0, 0, 5⟩⟩ := by
  exact (release_edge_fires_once (fun t => decide (t < 2)) 2 100 200 ⟨0, 0, 0⟩ ⟨0, 0, 1⟩
    [⟨⟨0, 0, 0⟩, ⟨0, 0, 0⟩, 1, ⟨0, 0, 5⟩⟩] 0 ⟨⟨0, 0, 0⟩, ⟨0, 0, 0⟩, 1, ⟨0, 0, 5⟩⟩
    (by norm_num) (fun t => rfl) rfl).2.1

/-- Witness for C7: object sitting exactly at the catcher position with
velocity `(3,4,0)` and mass `2`. -/
theorem playerCatch_zero_delta_witness :
    playerCatch true false Player.default.maxCatchSpeed 200 ⟨1, 2, 3⟩ ⟨0, 0, 1⟩
        [⟨⟨0, 0, 0⟩, ⟨3, 4, 0⟩, 2, ⟨1, 2, 3⟩⟩] =
      List.set [⟨⟨0, 0, 0⟩, ⟨3, 4, 0⟩, 2, ⟨1, 2, 3⟩⟩] 0
        ⟨(-((2 : ℚ) • (⟨3, 4, 0⟩ : Vec3))).toR, ⟨3, 4, 0⟩, 2, ⟨1, 2, 3⟩⟩ :=
  (playerCatch_zero_delta false 200 ⟨1, 2, 3⟩ ⟨0, 0, 1⟩
    [⟨⟨0, 0, 0⟩, ⟨3, 4, 0⟩, 2, ⟨1, 2, 3⟩⟩] 0 ⟨⟨0, 0, 0⟩, ⟨3, 4, 0⟩, 2, ⟨1, 2, 3⟩⟩
    rfl rfl).2.2

/-- Witness for C8 at `dp = (0,0,5)`, `v = 0`, `m = 2`. -/
theorem holdImpulse_bounded_witness :
    min (10 * (⟨0, 0, 5⟩ : Vec3).lengthSquared) Player.default.maxCatchSpeed ≤ 100 ∧
    (holdImpulse Player.default.maxCatchSpeed ⟨0, 0, 5⟩ ⟨0, 0, 0⟩ 2).norm ≤
      (100 + (⟨0, 0, 0⟩ : Vec3).toR.norm) * ((2 : ℚ) : ℝ) :=
  holdImpulse_bounded ⟨0, 0, 5⟩ ⟨0, 0, 0⟩ 2 (by norm_num)

/-- Witness for C9 at `d1 = 0`, `d2 = 3`. -/
theorem releaseSpeed_strict_decreasing_witness :
    releaseSpeed Player.default.throwSpeed 3 < releaseSpeed Player.default.throwSpeed 0 ∧
    releaseSpeed Player.default.throwSpeed 0 = Player.default.throwSpeed ∧
    0 < releaseSpeed Player.default.throwSpeed 3 ∧
    ∀ ε : ℚ, 0 < ε → ∃ D : ℚ, ∀ d, D ≤ d →
      releaseSpeed Player.default.throwSpeed d < ε :=
  releaseSpeed_strict_decreasing 0 3 (by norm_num) (by norm_num)

end
